import Mathlib

/-!
Verification development for the `internal/metrics` package of mq-container
(`internal/metrics/update.go`): the metric registry builder
(`initialiseMetrics`), the metric updater (`updateMetrics`), the key
derivation (`makeKey`), and the worker loop (`processMetrics`) with its
request/response rendezvous.

Modelling conventions:
* Go `map[string]*metricData` becomes an association list
  `Registry = List (String × metricData)`; `regFind` is map lookup and
  `regSet` is in-place mutation through the stored pointer.
* Go `int64` sample values become `Int`; Go `float64` normalised values
  become `Rat`.  The external collaborator `mqmetric.Normalise` is an
  arbitrary parameter `n : MonElement → String → Int → Rat`.
* A nil-map dereference panic (writing through a nil `*metricData`) is
  modelled by `Option`: `none` is the panic.
* `mqmetric.MonElement`'s parent pointers `Parent.Name` and
  `Parent.Parent.Name` are flattened into the element as `parentName`
  and `grandparentName`, which is all `makeKey` reads.
-/

namespace MQMetrics

/-! ### strings.Contains -/

/-- Test whether `pat` is an initial segment of the second list
(character-wise equality). -/
def leadEq : List Char → List Char → Bool
  | [], _ => true
  | _ :: _, [] => false
  | p :: ps, c :: cs => p == c && leadEq ps cs

/-- Test whether some suffix of the second list starts with `pat`. -/
def subIn (pat : List Char) : List Char → Bool
  | [] => pat.isEmpty
  | c :: rest => leadEq pat (c :: rest) || subIn pat rest

/-- Embeds Go `strings.Contains(s, pat)`. -/
def strContains (s pat : String) : Bool :=
  subIn pat.toList s.toList

/-! ### Data model (`mqmetric` catalog and `metricData`) -/

/-- One metric element of the external catalog (`mqmetric.MonElement`).
`values` is the element's cached publication samples (Go
`Values map[string]int64`). -/
structure MonElement where
  metricName : String
  description : String
  parentName : String
  grandparentName : String
  values : List (String × Int)
deriving DecidableEq, Repr

/-- A metric type (`mqmetric.MonType`): a topic template and its elements. -/
structure MonType where
  objectTopic : String
  elements : List MonElement
deriving DecidableEq, Repr

/-- A metric class (`mqmetric.MonClass`). -/
structure MonClass where
  types : List MonType
deriving DecidableEq, Repr

/-- The catalog `mqmetric.Metrics.Classes`. -/
abbrev Catalog := List MonClass

/-- Function `makeKey` from update.go:
`metricElement.Parent.Parent.Name + "/" + metricElement.Parent.Name + "/" + metricElement.MetricName`. -/
def makeKey (e : MonElement) : String :=
  e.grandparentName ++ "/" ++ e.parentName ++ "/" ++ e.metricName

/-- The registry entry type `metricData` from update.go.  `objectType`
is declared in the source but never written (Go zero value `false`). -/
structure metricData where
  name : String
  description : String
  objectType : Bool
  values : List (String × Rat)
deriving DecidableEq, Repr

/-- The struct literal `metricData{name: ..., description: ...}` built in
`initialiseMetrics`; the remaining fields keep their Go zero values
(`values` is the nil map). -/
def mkMetric (e : MonElement) : metricData :=
  { name := e.metricName, description := e.description,
    objectType := false, values := [] }

/-- The registry `map[string]*metricData`. -/
abbrev Registry := List (String × metricData)

/-- Go map lookup `metrics[key]`; `none` is the nil pointer. -/
def regFind (r : Registry) (k : String) : Option metricData :=
  match r with
  | [] => none
  | kv :: rest => if kv.1 = k then some kv.2 else regFind rest k

/-- Mutation of the `metricData` a stored pointer refers to
(`metric.values = ...` through `metrics[key]`). -/
def regSet (r : Registry) (k : String) (m : metricData) : Registry :=
  r.map (fun kv => if kv.1 = k then (kv.1, m) else kv)

/-! ### initialiseMetrics -/

/-- One pass of the innermost loop body of `initialiseMetrics`: build the
definition, compute the key, insert it first-writer-wins, clearing the
validity flag on a duplicate. -/
def initStep (acc : Registry × Bool) (metricElement : MonElement) : Registry × Bool :=
  let metric := mkMetric metricElement
  let key := makeKey metricElement
  match regFind acc.1 key with
  | some _ => (acc.1, false)
  | none => (acc.1 ++ [(key, metric)], acc.2)

/-- Function `initialiseMetrics` from update.go: iterate classes → types
(skipping parameterized topics containing "%s") → elements, returning the
registry and the validity flag (`true` ↔ the Go function returns a nil
error). -/
def initialiseMetrics (c : Catalog) : Registry × Bool :=
  c.foldl (fun acc metricClass =>
    metricClass.types.foldl (fun acc metricType =>
      if !(strContains metricType.objectTopic "%s") then
        metricType.elements.foldl initStep acc
      else acc) acc) ([], true)

/-- The `(map[string]*metricData, error)` shape of the Go return value:
the error is non-nil exactly when the validity flag was cleared. -/
def initialiseMetricsResult (c : Catalog) : Registry × Option String :=
  let res := initialiseMetrics c
  (res.1, if res.2 then none
          else some "Invalid metrics data - found duplicate metric keys")

/-! ### updateMetrics -/

/-- Go map insert `m[label] = v` (overwrite if the label is present). -/
def mapInsert (m : List (String × Rat)) (k : String) (v : Rat) :
    List (String × Rat) :=
  if (m.filter (fun kv => kv.1 = k)).isEmpty then m ++ [(k, v)]
  else m.map (fun kv => if kv.1 = k then (k, v) else kv)

/-- The fresh `values` map built for one element by the inner loop of
`updateMetrics`: start from an empty map and insert every cached sample
normalised by the collaborator. -/
def freshValues (n : MonElement → String → Int → Rat) (e : MonElement) :
    List (String × Rat) :=
  e.values.foldl (fun acc lv => mapInsert acc lv.1 (n e lv.1 lv.2)) []

/-- Innermost loop of `updateMetrics` over one type's elements:
look the element's key up (a missing key is a nil pointer, `none` =
panic on the write), replace the metric's `values` wholesale, and clear
the element's sample cache.  Returns the updated registry and the
elements with cleared caches. -/
def updateElements (n : MonElement → String → Int → Rat) :
    Registry → List MonElement → Option (Registry × List MonElement)
  | r, [] => some (r, [])
  | r, metricElement :: rest =>
    match regFind r (makeKey metricElement) with
    | none => none
    | some metric =>
      let r' := regSet r (makeKey metricElement)
        { metric with values := freshValues n metricElement }
      match updateElements n r' rest with
      | none => none
      | some (r'', rest') =>
        some (r'', { metricElement with values := [] } :: rest')

/-- Body of `updateMetrics` for one type: parameterized topics (containing
"%s") are skipped untouched. -/
def updateType (n : MonElement → String → Int → Rat) (r : Registry)
    (t : MonType) : Option (Registry × MonType) :=
  if !(strContains t.objectTopic "%s") then
    match updateElements n r t.elements with
    | none => none
    | some (r', es') => some (r', { t with elements := es' })
  else some (r, t)

/-- Loop of `updateMetrics` over a class's types. -/
def updateTypes (n : MonElement → String → Int → Rat) :
    Registry → List MonType → Option (Registry × List MonType)
  | r, [] => some (r, [])
  | r, t :: ts =>
    match updateType n r t with
    | none => none
    | some (r', t') =>
      match updateTypes n r' ts with
      | none => none
      | some (r'', ts') => some (r'', t' :: ts')

/-- Loop of `updateMetrics` over the catalog's classes. -/
def updateClasses (n : MonElement → String → Int → Rat) :
    Registry → Catalog → Option (Registry × Catalog)
  | r, [] => some (r, [])
  | r, cl :: cls =>
    match updateTypes n r cl.types with
    | none => none
    | some (r', ts') =>
      match updateClasses n r' cls with
      | none => none
      | some (r'', cls') => some (r'', { cl with types := ts' } :: cls')

/-- Function `updateMetrics` from update.go, with the mutation of the registry
(through stored pointers) and of the catalog's sample caches made
explicit; `none` is the nil-pointer panic of `metric.values = ...` when a
key is missing. -/
def updateMetrics (n : MonElement → String → Int → Rat) (r : Registry)
    (c : Catalog) : Option (Registry × Catalog) :=
  updateClasses n r c

/-! ### The worker (`processMetrics`)

The inner servicing loop and the outer reconnect loop are embedded as
schedule-driven transition functions: the environment supplies, per inner
iteration, the result of `mqmetric.ProcessPublications` and the outcome of
the `select` (a request or the idle timeout), and per outer iteration the
outcome of `doConnect`. -/

/-- Outcome of the `select` in the inner loop: either
`collect := <-requestChannel` delivers a boolean, or the
`time.After(requestTimeout * time.Second)` timer fires. -/
inductive SelectEvent where
  | request (collect : Bool)
  | timeout
deriving DecidableEq, Repr

/-- The body of the `case collect := <-requestChannel` branch: if the
flag is true run `updateMetrics(metrics)` first, then send `metrics` on
the response channel.  Returns the new registry, new catalog, and the
registry value sent as the reply; `none` is a panic inside
`updateMetrics`. -/
def handleRequest (n : MonElement → String → Int → Rat) (r : Registry)
    (c : Catalog) (collect : Bool) : Option (Registry × Catalog × Registry) :=
  if collect then
    match updateMetrics n r c with
    | none => none
    | some (r', c') => some (r', c', r')
  else some (r, c, r)

/-- One `select` round of the inner loop, with the requests still pending
on the unbuffered channel given as a queue: the worker receives at most
the head (Go channel receive takes exactly one value); an empty queue is
the timeout branch.  Returns the new registry, new catalog, the requests
left unread, and the replies sent this iteration. -/
def serviceIteration (n : MonElement → String → Int → Rat) (r : Registry)
    (c : Catalog) (pending : List Bool) :
    Option (Registry × Catalog × List Bool × List Registry) :=
  match pending with
  | [] => some (r, c, [], [])
  | collect :: rest =>
    match handleRequest n r c collect with
    | none => none
    | some (r', c', reply) => some (r', c', rest, [reply])

/-- Result of a run of the inner `for err == nil` loop: final registry
and catalog, the replies sent in order, and whether the loop exited
because `err != nil` (as opposed to the schedule running out). -/
structure InnerResult where
  metrics : Registry
  catalog : Catalog
  responses : List Registry
  errored : Bool
deriving DecidableEq, Repr

/-- The effect of the `select` statement on the worker state: the
timeout branch only logs, the request branch services the request
(`handleRequest`) and records the reply it sends. -/
def selectOutcome (n : MonElement → String → Int → Rat) (r : Registry)
    (c : Catalog) : SelectEvent → Option (Registry × Catalog × List Registry)
  | .timeout => some (r, c, [])
  | .request collect =>
    match handleRequest n r c collect with
    | none => none
    | some (r', c', reply) => some (r', c', [reply])

/-- The inner `for err == nil` loop of `processMetrics`, driven by a
schedule: each entry is (result of `mqmetric.ProcessPublications` —
`true` = nil error, and the `select` outcome).  Faithful to the source,
the `select` runs in the same iteration even when `ProcessPublications`
just returned an error; the error is only observed at the next
loop-condition check. -/
def innerLoop (n : MonElement → String → Int → Rat) :
    Registry → Catalog → List (Bool × SelectEvent) → Option InnerResult
  | r, c, [] => some ⟨r, c, [], false⟩
  | r, c, (drainOk, ev) :: rest =>
    match selectOutcome n r c ev with
    | none => none
    | some (r', c', replies) =>
      if drainOk then
        match innerLoop n r' c' rest with
        | none => none
        | some res =>
          some ⟨res.metrics, res.catalog, replies ++ res.responses, res.errored⟩
      else some ⟨r', c', replies, true⟩

/-- Observable actions of the outer loop of `processMetrics`. -/
inductive WorkerAction where
  | checkFlag (running : Bool)
  | connectAttempt (ok : Bool)
  | wgDone
  | buildRegistry
  | runInner
  | logError
  | endConnection
  | sleep (seconds : Nat)
deriving DecidableEq, Repr

/-- One iteration of the outer `for keepRunning` loop given the outcome
of `doConnect`: on success, signal the barrier when `first` is still set,
build the registry and run the inner loop (which exits with an error);
then, in every case, log the error, call `mqmetric.EndConnection()` and
sleep 10 seconds. -/
def connectCycle (first ok : Bool) : List WorkerAction :=
  [.checkFlag true, .connectAttempt ok] ++
    (if ok then
      (if first then [.wgDone] else []) ++ [.buildRegistry, .runInner]
    else []) ++
    [.logError, .endConnection, .sleep 10]

/-- The `first` flag after a connect attempt: cleared on the first
success, untouched on failure. -/
def stepFirst (first ok : Bool) : Bool := if ok then false else first

/-- Trace of the outer loop of `processMetrics` over a finite schedule of
`doConnect` outcomes; the schedule's length is the number of iterations
before `keepRunning` is observed false. -/
def processTrace (first : Bool) : List Bool → List WorkerAction
  | [] => [.checkFlag false]
  | ok :: rest => connectCycle first ok ++ processTrace (stepFirst first ok) rest

/-- Number of `wgDone` (startup-barrier) signals in a trace. -/
def countWgDone (tr : List WorkerAction) : Nat :=
  tr.countP (fun a => a == .wgDone)

/-- Number of `doConnect` attempts in a trace. -/
def countConnects (tr : List WorkerAction) : Nat :=
  tr.countP (fun a => match a with | .connectAttempt _ => true | _ => false)

/-! ### Flat views of the catalog iteration -/

/-- The elements one type contributes to registry building / updating:
none when its topic template is parameterized. -/
def nonParamTypeElements (t : MonType) : List MonElement :=
  if !(strContains t.objectTopic "%s") then t.elements else []

/-- The non-parameterized elements of a catalog, in iteration order. -/
def nonParamElements (c : Catalog) : List MonElement :=
  (c.map (fun cl => (cl.types.map nonParamTypeElements).flatten)).flatten

/-- Every element of a catalog, in iteration order. -/
def allElements (c : Catalog) : List MonElement :=
  (c.map (fun cl => (cl.types.map MonType.elements).flatten)).flatten

/-- An element with its sample cache cleared. -/
def clearElement (e : MonElement) : MonElement := { e with values := [] }

/-- A type after `updateMetrics`: caches cleared unless parameterized. -/
def clearType (t : MonType) : MonType :=
  if !(strContains t.objectTopic "%s") then
    { t with elements := t.elements.map clearElement }
  else t

/-- A catalog after `updateMetrics`. -/
def clearCatalog (c : Catalog) : Catalog :=
  c.map (fun cl => { cl with types := cl.types.map clearType })

/-- Recursive form of the `initialiseMetrics` fold over a flat element
list. -/
def initFlat : Registry × Bool → List MonElement → Registry × Bool
  | acc, [] => acc
  | acc, e :: es => initFlat (initStep acc e) es

/-- Recursive form of the registry part of `updateMetrics` over a flat
element list. -/
def updateFlat (n : MonElement → String → Int → Rat) :
    Registry → List MonElement → Option Registry
  | r, [] => some r
  | r, e :: es =>
    match regFind r (makeKey e) with
    | none => none
    | some metric =>
      updateFlat n (regSet r (makeKey e) { metric with values := freshValues n e }) es

/-- Predicate `noDupKeys r es`: inserting the derived keys of `es` one by one into
a registry that already has the keys of `r` never meets a duplicate. -/
def noDupKeys : Registry → List MonElement → Bool
  | _, [] => true
  | r, e :: es =>
    match regFind r (makeKey e) with
    | some _ => false
    | none => noDupKeys (r ++ [(makeKey e, mkMetric e)]) es

/-- First element of the list whose derived key is `k`. -/
def firstKey : List MonElement → String → Option MonElement
  | [], _ => none
  | e :: es, k => if makeKey e = k then some e else firstKey es k

/-! ### Registry lemmas -/

theorem regFind_append_single (r : Registry) (k₀ k : String) (m : metricData) :
    regFind (r ++ [(k₀, m)]) k =
      match regFind r k with
      | some m' => some m'
      | none => if k₀ = k then some m else none := by
  induction r with
  | nil => simp [regFind]
  | cons kv rest ih =>
    by_cases h : kv.1 = k <;> simp [regFind, h, ih]

theorem regFind_eq_none_iff (r : Registry) (k : String) :
    regFind r k = none ↔ k ∉ r.map Prod.fst := by
  induction r with
  | nil => simp [regFind]
  | cons kv rest ih =>
    by_cases h : kv.1 = k
    · simp [regFind, h]
    · rw [List.map_cons, List.mem_cons, not_or]
      simp only [regFind, if_neg h, ih]
      exact ⟨fun hn => ⟨fun heq => h heq.symm, hn⟩, fun hp => hp.2⟩

theorem regFind_ne_none_iff (r : Registry) (k : String) :
    regFind r k ≠ none ↔ k ∈ r.map Prod.fst := by
  rw [ne_eq, regFind_eq_none_iff, not_not]

theorem regSet_cons (kv : String × metricData) (rest : Registry) (k : String)
    (m : metricData) :
    regSet (kv :: rest) k m =
      (if kv.1 = k then (kv.1, m) else kv) :: regSet rest k m := rfl

theorem regSet_map_fst (r : Registry) (k : String) (m : metricData) :
    (regSet r k m).map Prod.fst = r.map Prod.fst := by
  induction r with
  | nil => rfl
  | cons kv rest ih =>
    rw [regSet_cons]
    by_cases h : kv.1 = k <;> simp [h, ih]

theorem regFind_regSet_self (r : Registry) (k : String) (m : metricData) :
    regFind (regSet r k m) k = (regFind r k).map (fun _ => m) := by
  induction r with
  | nil => simp [regSet, regFind]
  | cons kv rest ih =>
    rw [regSet_cons]
    by_cases h : kv.1 = k
    · simp [regFind, h]
    · simp [regFind, h, ih]

theorem regFind_regSet_ne (r : Registry) (k k' : String) (m : metricData)
    (h : k' ≠ k) :
    regFind (regSet r k m) k' = regFind r k' := by
  induction r with
  | nil => simp [regSet, regFind]
  | cons kv rest ih =>
    rw [regSet_cons]
    by_cases hk : kv.1 = k
    · have h1 : ¬ kv.1 = k' := by rw [hk]; exact fun hh => h hh.symm
      have h2 : ¬ k = k' := fun hh => h hh.symm
      simp [regFind, hk, h1, h2, ih]
    · by_cases hk' : kv.1 = k'
      · simp [regFind, hk, hk', h]
      · simp [regFind, hk, hk', ih]

theorem firstKey_eq_none_iff (es : List MonElement) (k : String) :
    firstKey es k = none ↔ k ∉ es.map makeKey := by
  induction es with
  | nil => simp [firstKey]
  | cons e es ih =>
    by_cases h : makeKey e = k
    · simp [firstKey, h]
    · rw [List.map_cons, List.mem_cons, not_or]
      simp only [firstKey, if_neg h, ih]
      exact ⟨fun hn => ⟨fun heq => h heq.symm, hn⟩, fun hp => hp.2⟩

/-! ### Flattening `initialiseMetrics` -/

theorem foldl_initStep_eq_initFlat (es : List MonElement) (acc : Registry × Bool) :
    es.foldl initStep acc = initFlat acc es := by
  induction es generalizing acc with
  | nil => rfl
  | cons e es ih => simp [initFlat, List.foldl_cons, ih]

theorem initFlat_append (es₁ es₂ : List MonElement) (acc : Registry × Bool) :
    initFlat acc (es₁ ++ es₂) = initFlat (initFlat acc es₁) es₂ := by
  induction es₁ generalizing acc with
  | nil => rfl
  | cons e es ih => simp [initFlat, ih]

theorem initTypes_eq_initFlat (ts : List MonType) (acc : Registry × Bool) :
    ts.foldl (fun acc metricType =>
      if !(strContains metricType.objectTopic "%s") then
        metricType.elements.foldl initStep acc
      else acc) acc
      = initFlat acc ((ts.map nonParamTypeElements).flatten) := by
  induction ts generalizing acc with
  | nil => rfl
  | cons t ts ih =>
    rw [List.foldl_cons, ih, List.map_cons, List.flatten_cons, initFlat_append]
    by_cases h : strContains t.objectTopic "%s" <;>
      simp [nonParamTypeElements, h, foldl_initStep_eq_initFlat, initFlat]

theorem initialiseMetrics_eq_initFlat (c : Catalog) :
    initialiseMetrics c = initFlat ([], true) (nonParamElements c) := by
  suffices h : ∀ acc, c.foldl (fun acc metricClass =>
      metricClass.types.foldl (fun acc metricType =>
        if !(strContains metricType.objectTopic "%s") then
          metricType.elements.foldl initStep acc
        else acc) acc) acc
      = initFlat acc (nonParamElements c) from h ([], true)
  intro acc
  induction c generalizing acc with
  | nil => rfl
  | cons cl cls ih =>
    rw [List.foldl_cons, ih, initTypes_eq_initFlat]
    simp [nonParamElements, initFlat_append]

/-! ### Contents of the built registry -/

/-- First-writer-wins: looking a key up in the built registry finds the
definition of the first element that derived that key (entries already in
the accumulator take precedence). -/
theorem initFlat_regFind (es : List MonElement) (r : Registry) (v : Bool)
    (k : String) :
    regFind (initFlat (r, v) es).1 k =
      match regFind r k with
      | some m => some m
      | none => (firstKey es k).map mkMetric := by
  induction es generalizing r v with
  | nil => cases h : regFind r k <;> simp [initFlat, firstKey, h]
  | cons e es ih =>
    show regFind (initFlat (initStep (r, v) e) es).1 k = _
    cases he : regFind r (makeKey e) with
    | some m₀ =>
      have hstep : initStep (r, v) e = (r, false) := by
        simp [initStep, he]
      rw [hstep, ih]
      cases hk : regFind r k with
      | some m => simp
      | none =>
        have hne : ¬ makeKey e = k := fun hh => by
          rw [hh] at he; rw [he] at hk; exact Option.noConfusion hk
        simp [firstKey, hne]
    | none =>
      have hstep : initStep (r, v) e = (r ++ [(makeKey e, mkMetric e)], v) := by
        simp [initStep, he]
      rw [hstep, ih, regFind_append_single]
      cases hk : regFind r k with
      | some m => simp
      | none =>
        by_cases hek : makeKey e = k
        · simp [firstKey, hek]
        · simp [firstKey, hek]

/-- The validity flag of `initFlat` is the accumulated flag conjoined
with freshness of every inserted key. -/
theorem initFlat_snd (es : List MonElement) (r : Registry) (v : Bool) :
    (initFlat (r, v) es).2 = (v && noDupKeys r es) := by
  induction es generalizing r v with
  | nil => simp [initFlat, noDupKeys]
  | cons e es ih =>
    show (initFlat (initStep (r, v) e) es).2 = _
    cases he : regFind r (makeKey e) with
    | some m₀ =>
      have hstep : initStep (r, v) e = (r, false) := by
        simp [initStep, he]
      rw [hstep, ih]
      simp [noDupKeys, he]
    | none =>
      have hstep : initStep (r, v) e = (r ++ [(makeKey e, mkMetric e)], v) := by
        simp [initStep, he]
      rw [hstep, ih]
      simp [noDupKeys, he]

/-- Building from an accumulator registry meets no duplicate exactly when the
derived keys are pairwise distinct and each avoids the accumulator. -/
theorem noDupKeys_iff (es : List MonElement) (r : Registry) :
    noDupKeys r es = true ↔
      ((es.map makeKey).Nodup ∧ ∀ e ∈ es, regFind r (makeKey e) = none) := by
  induction es generalizing r with
  | nil => simp [noDupKeys]
  | cons e es ih =>
    cases he : regFind r (makeKey e) with
    | some m₀ =>
      have : noDupKeys r (e :: es) = false := by simp [noDupKeys, he]
      rw [this]
      simp only [List.map_cons, List.nodup_cons]
      constructor
      · intro hh; exact Bool.noConfusion hh
      · rintro ⟨-, hall⟩
        have := hall e (List.mem_cons_self e es)
        rw [he] at this; exact Option.noConfusion this
    | none =>
      have hstep : noDupKeys r (e :: es)
          = noDupKeys (r ++ [(makeKey e, mkMetric e)]) es := by
        simp [noDupKeys, he]
      rw [hstep, ih]
      simp only [List.map_cons, List.nodup_cons]
      have happ : ∀ e' : MonElement,
          regFind (r ++ [(makeKey e, mkMetric e)]) (makeKey e') = none ↔
            (regFind r (makeKey e') = none ∧ ¬ makeKey e = makeKey e') := by
        intro e'
        rw [regFind_append_single]
        cases hk : regFind r (makeKey e') with
        | some m => simp
        | none => by_cases hek : makeKey e = makeKey e' <;> simp [hek]
      constructor
      · rintro ⟨hnd, hall⟩
        refine ⟨⟨?_, hnd⟩, ?_⟩
        · intro hmem
          rcases List.mem_map.mp hmem with ⟨e', he', hkey⟩
          exact ((happ e').mp (hall e' he')).2 hkey.symm
        · intro e' he'
          rcases List.mem_cons.mp he' with h | h
          · rw [h]; exact he
          · exact ((happ e').mp (hall e' h)).1
      · rintro ⟨⟨hne, hnd⟩, hall⟩
        refine ⟨hnd, ?_⟩
        intro e' he'
        refine (happ e').mpr ⟨hall e' (List.mem_cons_of_mem e he'), ?_⟩
        intro hkey
        exact hne (by rw [hkey]; exact List.mem_map_of_mem makeKey he')

/-! ### Flattening `updateMetrics` -/

theorem updateFlat_append (n : MonElement → String → Int → Rat)
    (es₁ es₂ : List MonElement) (r : Registry) :
    updateFlat n r (es₁ ++ es₂)
      = (updateFlat n r es₁).bind (fun r' => updateFlat n r' es₂) := by
  induction es₁ generalizing r with
  | nil => simp [updateFlat]
  | cons e es ih =>
    cases he : regFind r (makeKey e) with
    | none => simp [updateFlat, he]
    | some m => simp [updateFlat, he, ih]

theorem updateElements_eq (n : MonElement → String → Int → Rat)
    (es : List MonElement) (r : Registry) :
    updateElements n r es
      = (updateFlat n r es).map (fun r' => (r', es.map clearElement)) := by
  induction es generalizing r with
  | nil => simp [updateElements, updateFlat]
  | cons e es ih =>
    cases he : regFind r (makeKey e) with
    | none => simp [updateElements, updateFlat, he]
    | some m =>
      rw [show updateFlat n r (e :: es)
            = updateFlat n
                (regSet r (makeKey e) { m with values := freshValues n e }) es by
            simp [updateFlat, he]]
      simp only [updateElements, he, ih]
      cases updateFlat n
          (regSet r (makeKey e) { m with values := freshValues n e }) es with
      | none => simp
      | some r'' => simp [clearElement]

theorem updateType_eq (n : MonElement → String → Int → Rat) (t : MonType)
    (r : Registry) :
    updateType n r t
      = (updateFlat n r (nonParamTypeElements t)).map
          (fun r' => (r', clearType t)) := by
  by_cases h : strContains t.objectTopic "%s"
  · simp [updateType, nonParamTypeElements, clearType, h, updateFlat]
  · simp only [updateType, nonParamTypeElements, clearType, h,
      Bool.not_false, if_pos, updateElements_eq]
    cases updateFlat n r t.elements with
    | none => simp
    | some r' => simp

theorem updateTypes_eq (n : MonElement → String → Int → Rat)
    (ts : List MonType) (r : Registry) :
    updateTypes n r ts
      = (updateFlat n r ((ts.map nonParamTypeElements).flatten)).map
          (fun r' => (r', ts.map clearType)) := by
  induction ts generalizing r with
  | nil => simp [updateTypes, updateFlat]
  | cons t ts ih =>
    simp only [List.map_cons, List.flatten_cons]
    rw [updateFlat_append]
    simp only [updateTypes, updateType_eq, ih]
    cases updateFlat n r (nonParamTypeElements t) with
    | none => simp
    | some r' =>
      simp only [Option.map_some', Option.some_bind]
      cases updateFlat n r' ((ts.map nonParamTypeElements).flatten) with
      | none => simp
      | some r'' => simp

theorem updateMetrics_eq_updateFlat (n : MonElement → String → Int → Rat)
    (c : Catalog) (r : Registry) :
    updateMetrics n r c
      = (updateFlat n r (nonParamElements c)).map
          (fun r' => (r', clearCatalog c)) := by
  induction c generalizing r with
  | nil => simp [updateMetrics, updateClasses, updateFlat, nonParamElements,
      clearCatalog]
  | cons cl cls ih =>
    show updateClasses n r (cl :: cls) = _
    rw [show nonParamElements (cl :: cls)
          = (cl.types.map nonParamTypeElements).flatten
              ++ nonParamElements cls by
        simp [nonParamElements]]
    rw [updateFlat_append]
    simp only [updateClasses, updateTypes_eq]
    cases updateFlat n r ((cl.types.map nonParamTypeElements).flatten) with
    | none => simp
    | some r' =>
      simp only [Option.map_some', Option.some_bind]
      rw [show updateClasses n r' cls = updateMetrics n r' cls from rfl, ih]
      cases updateFlat n r' (nonParamElements cls) with
      | none => simp
      | some r'' => simp [clearCatalog]

/-! ### Properties of `updateFlat` -/

theorem updateFlat_map_fst (n : MonElement → String → Int → Rat)
    (es : List MonElement) (r r' : Registry)
    (h : updateFlat n r es = some r') :
    r'.map Prod.fst = r.map Prod.fst := by
  induction es generalizing r with
  | nil =>
    simp only [updateFlat] at h
    cases h; rfl
  | cons e es ih =>
    simp only [updateFlat] at h
    cases he : regFind r (makeKey e) with
    | none => rw [he] at h; exact Option.noConfusion h
    | some m =>
      rw [he] at h
      rw [ih _ h, regSet_map_fst]

theorem updateFlat_isSome_iff (n : MonElement → String → Int → Rat)
    (es : List MonElement) (r : Registry) :
    (updateFlat n r es).isSome = true ↔
      ∀ e ∈ es, makeKey e ∈ r.map Prod.fst := by
  induction es generalizing r with
  | nil => simp [updateFlat]
  | cons e es ih =>
    cases he : regFind r (makeKey e) with
    | none =>
      simp only [updateFlat, he]
      constructor
      · intro hh; exact Bool.noConfusion hh
      · rintro hall
        have := (regFind_eq_none_iff r (makeKey e)).mp he
        exact absurd (hall e (List.mem_cons_self e es)) this
    | some m =>
      simp only [updateFlat, he, ih, regSet_map_fst]
      constructor
      · intro hall
        intro e' he'
        rcases List.mem_cons.mp he' with h | h
        · rw [h]
          exact (regFind_ne_none_iff r (makeKey e)).mp (by rw [he]; simp)
        · exact hall e' h
      · intro hall e' he'
        exact hall e' (List.mem_cons_of_mem e he')

theorem updateFlat_regFind_not_mem (n : MonElement → String → Int → Rat)
    (es : List MonElement) (r r' : Registry) (k : String)
    (hk : k ∉ es.map makeKey) (h : updateFlat n r es = some r') :
    regFind r' k = regFind r k := by
  induction es generalizing r with
  | nil => simp only [updateFlat] at h; cases h; rfl
  | cons e es ih =>
    simp only [updateFlat] at h
    cases he : regFind r (makeKey e) with
    | none => rw [he] at h; exact Option.noConfusion h
    | some m =>
      rw [he] at h
      have hne : k ≠ makeKey e := by
        intro hh
        exact hk (by rw [hh, List.map_cons]; exact List.mem_cons_self _ _)
      have hk' : k ∉ es.map makeKey := by
        intro hh
        exact hk (by rw [List.map_cons]; exact List.mem_cons_of_mem _ hh)
      rw [ih _ hk' h, regFind_regSet_ne _ _ _ _ hne]

/-- When the derived keys are pairwise distinct, the entry of `e` in the
final registry is its old metric with `values` replaced wholesale by the
freshly normalised samples of `e`. -/
theorem updateFlat_regFind_nodup (n : MonElement → String → Int → Rat)
    (es : List MonElement) (r r' : Registry) (e : MonElement)
    (m : metricData)
    (hnd : (es.map makeKey).Nodup) (hmem : e ∈ es)
    (hm : regFind r (makeKey e) = some m)
    (h : updateFlat n r es = some r') :
    regFind r' (makeKey e) = some { m with values := freshValues n e } := by
  induction es generalizing r with
  | nil => exact absurd hmem (List.not_mem_nil e)
  | cons e₀ es ih =>
    simp only [updateFlat] at h
    cases he₀ : regFind r (makeKey e₀) with
    | none => rw [he₀] at h; exact Option.noConfusion h
    | some m₀ =>
      rw [he₀] at h
      rw [List.map_cons, List.nodup_cons] at hnd
      rcases List.mem_cons.mp hmem with heq | hmem'
      · subst heq
        have hkey : makeKey e ∉ es.map makeKey := hnd.1
        rw [updateFlat_regFind_not_mem n es _ r' _ hkey h]
        rw [regFind_regSet_self, hm]
        rw [hm] at he₀
        cases he₀; rfl
      · have hne : makeKey e ≠ makeKey e₀ := by
          intro hh
          exact hnd.1 (hh ▸ List.mem_map_of_mem makeKey hmem')
        have hm' : regFind (regSet r (makeKey e₀)
            { m₀ with values := freshValues n e₀ }) (makeKey e) = some m := by
          rw [regFind_regSet_ne _ _ _ _ hne]; exact hm
        exact ih _ hnd.2 hmem' hm' h

/-- An element with an empty sample cache produces an empty fresh
`values` map. -/
theorem freshValues_of_empty (n : MonElement → String → Int → Rat)
    (e : MonElement) (h : e.values = []) : freshValues n e = [] := by
  simp [freshValues, h]

/-- Updating from all-empty caches preserves "the entry at `k` has empty
`values`". -/
theorem updateFlat_preserves_empty (n : MonElement → String → Int → Rat)
    (es : List MonElement) (r r' : Registry) (k : String) (m : metricData)
    (hemp : ∀ e ∈ es, e.values = [])
    (h : updateFlat n r es = some r')
    (hk : regFind r k = some m) (hv : m.values = []) :
    ∃ m', regFind r' k = some m' ∧ m'.values = [] := by
  induction es generalizing r m with
  | nil => simp only [updateFlat] at h; cases h; exact ⟨m, hk, hv⟩
  | cons e es ih =>
    simp only [updateFlat] at h
    cases he : regFind r (makeKey e) with
    | none => rw [he] at h; exact Option.noConfusion h
    | some m₀ =>
      rw [he] at h
      have hemp' : ∀ e' ∈ es, e'.values = [] :=
        fun e' he' => hemp e' (List.mem_cons_of_mem e he')
      by_cases hkk : k = makeKey e
      · subst hkk
        refine ih _ { m₀ with values := freshValues n e } hemp' h ?_ ?_
        · rw [regFind_regSet_self, he]; rfl
        · exact freshValues_of_empty n e (hemp e (List.mem_cons_self e es))
      · refine ih _ m hemp' h ?_ hv
        rw [regFind_regSet_ne _ _ _ _ hkk]; exact hk

/-- After updating from all-empty caches, every processed element's
registry entry has empty `values`. -/
theorem updateFlat_empty_caches (n : MonElement → String → Int → Rat)
    (es : List MonElement) (r r' : Registry)
    (hemp : ∀ e ∈ es, e.values = [])
    (h : updateFlat n r es = some r') :
    ∀ e ∈ es, ∃ m', regFind r' (makeKey e) = some m' ∧ m'.values = [] := by
  induction es generalizing r with
  | nil => intro e he; exact absurd he (List.not_mem_nil e)
  | cons e₀ es ih =>
    intro e he
    simp only [updateFlat] at h
    cases he₀ : regFind r (makeKey e₀) with
    | none => rw [he₀] at h; exact Option.noConfusion h
    | some m₀ =>
      rw [he₀] at h
      have hemp' : ∀ e' ∈ es, e'.values = [] :=
        fun e' he' => hemp e' (List.mem_cons_of_mem e₀ he')
      rcases List.mem_cons.mp he with heq | hmem
      · subst heq
        refine updateFlat_preserves_empty n es _ r' (makeKey e)
          { m₀ with values := freshValues n e } hemp' h ?_ ?_
        · rw [regFind_regSet_self, he₀]; rfl
        · exact freshValues_of_empty n e (hemp e (List.mem_cons_self e es))
      · exact ih _ hemp' h e hmem

/-! ### Catalog clearing -/

theorem makeKey_clearElement (e : MonElement) :
    makeKey (clearElement e) = makeKey e := rfl

theorem nonParamTypeElements_clearType (t : MonType) :
    nonParamTypeElements (clearType t)
      = (nonParamTypeElements t).map clearElement := by
  by_cases h : strContains t.objectTopic "%s" <;>
    simp [nonParamTypeElements, clearType, h]

theorem nonParamElements_clearCatalog (c : Catalog) :
    nonParamElements (clearCatalog c)
      = (nonParamElements c).map clearElement := by
  induction c with
  | nil => rfl
  | cons cl cls ih =>
    show nonParamElements (⟨cl.types.map clearType⟩ :: clearCatalog cls) = _
    have h1 : nonParamElements (cl :: cls)
        = (cl.types.map nonParamTypeElements).flatten ++ nonParamElements cls := by
      simp [nonParamElements]
    have h2 : nonParamElements (⟨cl.types.map clearType⟩ :: clearCatalog cls)
        = ((cl.types.map clearType).map nonParamTypeElements).flatten
            ++ nonParamElements (clearCatalog cls) := by
      simp [nonParamElements]
    rw [h1, h2, ih, List.map_append]
    congr 1
    rw [List.map_map, List.map_flatten, List.map_map]
    have hfun : (nonParamTypeElements ∘ clearType)
        = (List.map clearElement ∘ nonParamTypeElements) :=
      funext fun t => nonParamTypeElements_clearType t
    rw [hfun]

/-! ### Trace counting lemmas -/

theorem countWgDone_append (a b : List WorkerAction) :
    countWgDone (a ++ b) = countWgDone a + countWgDone b :=
  List.countP_append _ _ _

theorem countConnects_append (a b : List WorkerAction) :
    countConnects (a ++ b) = countConnects a + countConnects b :=
  List.countP_append _ _ _

theorem countWgDone_connectCycle (f ok : Bool) :
    countWgDone (connectCycle f ok) = (if f && ok then 1 else 0) := by
  cases f <;> cases ok <;> rfl

theorem countConnects_connectCycle (f ok : Bool) :
    countConnects (connectCycle f ok) = 1 := by
  cases f <;> cases ok <;> rfl

theorem countWgDone_processTrace_false (l : List Bool) :
    countWgDone (processTrace false l) = 0 := by
  induction l with
  | nil => rfl
  | cons ok rest ih =>
    rw [show processTrace false (ok :: rest)
          = connectCycle false ok ++ processTrace (stepFirst false ok) rest
        from rfl]
    rw [countWgDone_append, countWgDone_connectCycle]
    cases ok <;> simp [stepFirst, ih]

theorem countWgDone_processTrace_true (l : List Bool) :
    countWgDone (processTrace true l) = (if true ∈ l then 1 else 0) := by
  induction l with
  | nil => rfl
  | cons ok rest ih =>
    rw [show processTrace true (ok :: rest)
          = connectCycle true ok ++ processTrace (stepFirst true ok) rest
        from rfl]
    rw [countWgDone_append, countWgDone_connectCycle]
    cases ok
    · rw [show stepFirst true false = true from rfl, ih]
      simp [List.mem_cons]
    · rw [show stepFirst true true = false from rfl,
        countWgDone_processTrace_false]
      simp

theorem countConnects_processTrace (f : Bool) (l : List Bool) :
    countConnects (processTrace f l) = l.length := by
  induction l generalizing f with
  | nil => rfl
  | cons ok rest ih =>
    rw [show processTrace f (ok :: rest)
          = connectCycle f ok ++ processTrace (stepFirst f ok) rest
        from rfl]
    rw [countConnects_append, countConnects_connectCycle, ih]
    simp [Nat.add_comm]

/-! ### Inner-loop lemmas -/

/-- As long as every drain before it succeeded, the schedule after the
first failed drain is never consumed: the loop exits at the next
condition check. -/
theorem innerLoop_truncate (n : MonElement → String → Int → Rat)
    (pre : List (Bool × SelectEvent)) (r : Registry) (c : Catalog)
    (ev : SelectEvent) (rest : List (Bool × SelectEvent))
    (hpre : ∀ p ∈ pre, p.1 = true) :
    innerLoop n r c (pre ++ (false, ev) :: rest)
      = innerLoop n r c (pre ++ [(false, ev)]) := by
  induction pre generalizing r c with
  | nil =>
    show innerLoop n r c ((false, ev) :: rest) = innerLoop n r c [(false, ev)]
    cases hsel : selectOutcome n r c ev with
    | none => simp [innerLoop, hsel]
    | some out => simp [innerLoop, hsel]
  | cons p pre ih =>
    have hp : p.1 = true := hpre p (List.mem_cons_self p pre)
    obtain ⟨drainOk, ev₀⟩ := p
    cases hp
    have hpre' : ∀ q ∈ pre, q.1 = true :=
      fun q hq => hpre q (List.mem_cons_of_mem _ hq)
    show innerLoop n r c ((true, ev₀) :: (pre ++ (false, ev) :: rest)) = _
    cases hsel : selectOutcome n r c ev₀ with
    | none => simp [innerLoop, hsel]
    | some out =>
      obtain ⟨r', c', replies⟩ := out
      simp only [innerLoop, hsel, if_pos]
      rw [ih r' c' hpre']
      rfl

/-- A loop run whose schedule ends in a failed drain (after all-good
drains) reports the error to the caller of the inner loop. -/
theorem innerLoop_errored (n : MonElement → String → Int → Rat)
    (pre : List (Bool × SelectEvent)) (r : Registry) (c : Catalog)
    (ev : SelectEvent) (res : InnerResult)
    (hpre : ∀ p ∈ pre, p.1 = true)
    (h : innerLoop n r c (pre ++ [(false, ev)]) = some res) :
    res.errored = true := by
  induction pre generalizing r c res with
  | nil =>
    rw [show ([] : List (Bool × SelectEvent)) ++ [(false, ev)] = [(false, ev)]
        from rfl] at h
    cases hsel : selectOutcome n r c ev with
    | none => simp [innerLoop, hsel] at h
    | some out =>
      obtain ⟨r', c', replies⟩ := out
      simp only [innerLoop, hsel, Bool.false_eq_true, if_false] at h
      cases h; rfl
  | cons p pre ih =>
    have hp : p.1 = true := hpre p (List.mem_cons_self p pre)
    obtain ⟨drainOk, ev₀⟩ := p
    cases hp
    have hpre' : ∀ q ∈ pre, q.1 = true :=
      fun q hq => hpre q (List.mem_cons_of_mem _ hq)
    rw [List.cons_append] at h
    cases hsel : selectOutcome n r c ev₀ with
    | none => simp [innerLoop, hsel] at h
    | some out =>
      obtain ⟨r', c', replies⟩ := out
      simp only [innerLoop, hsel, if_pos] at h
      cases hrec : innerLoop n r' c' (pre ++ [(false, ev)]) with
      | none => rw [hrec] at h; exact Option.noConfusion h
      | some res₀ =>
        rw [hrec] at h
        cases h
        exact ih r' c' res₀ hpre' hrec

/-- A single iteration sends at most one reply. -/
theorem innerLoop_single_responses (n : MonElement → String → Int → Rat)
    (r : Registry) (c : Catalog) (drainOk : Bool) (ev : SelectEvent)
    (res : InnerResult)
    (h : innerLoop n r c [(drainOk, ev)] = some res) :
    res.responses.length ≤ 1 := by
  cases hsel : selectOutcome n r c ev with
  | none => simp [innerLoop, hsel] at h
  | some out =>
    obtain ⟨r', c', replies⟩ := out
    have hlen : replies.length ≤ 1 := by
      cases ev with
      | timeout =>
        simp only [selectOutcome] at hsel
        cases hsel; simp
      | request b =>
        simp only [selectOutcome] at hsel
        cases hr : handleRequest n r c b with
        | none => rw [hr] at hsel; exact Option.noConfusion hsel
        | some out' =>
          obtain ⟨r₀, c₀, reply⟩ := out'
          rw [hr] at hsel
          cases hsel; simp
    cases drainOk with
    | true =>
      simp only [innerLoop, hsel, if_pos] at h
      cases h
      simpa using hlen
    | false =>
      simp only [innerLoop, hsel, Bool.false_eq_true, if_false] at h
      cases h
      exact hlen

/-- When no type's topic template is parameterized, every element of the
catalog takes part in registry building. -/
theorem nonParamElements_eq_allElements (c : Catalog)
    (hnp : ∀ cl ∈ c, ∀ t ∈ cl.types, strContains t.objectTopic "%s" = false) :
    nonParamElements c = allElements c := by
  unfold nonParamElements allElements
  congr 1
  apply List.map_congr_left
  intro cl hcl
  congr 1
  apply List.map_congr_left
  intro t ht
  simp [nonParamTypeElements, hnp cl hcl t ht]

/-! ### Concrete inputs used by the witnesses -/

/-- Identity normalisation: the raw sample is reported unchanged. -/
def idNormalise : MonElement → String → Int → Rat := fun _ _ v => (v : Rat)

/-- A sample element; derived key "qmgr/cls/m1". -/
def elemA : MonElement :=
  { metricName := "m1", description := "d1", parentName := "cls",
    grandparentName := "qmgr", values := [] }

/-- A second element; derived key "qmgr/cls/m2". -/
def elemB : MonElement :=
  { metricName := "m2", description := "d2", parentName := "cls",
    grandparentName := "qmgr", values := [] }

/-- An element whose derived key collides with `elemA`. -/
def elemDup : MonElement :=
  { metricName := "m1", description := "d2", parentName := "cls",
    grandparentName := "qmgr", values := [] }

/-- Element `elemA` with two cached raw samples. -/
def elemCached : MonElement :=
  { metricName := "m1", description := "d1", parentName := "cls",
    grandparentName := "qmgr", values := [("a", 10), ("b", 20)] }

/-- A catalog with two distinct-key elements. -/
def catalogAB : Catalog :=
  [{ types := [{ objectTopic := "$SYS/topic", elements := [elemA, elemB] }] }]

/-- A catalog with a duplicate derived key. -/
def catalogDup : Catalog :=
  [{ types := [{ objectTopic := "$SYS/topic", elements := [elemA, elemDup] }] }]

/-- A catalog with one element holding cached samples. -/
def catalogCached : Catalog :=
  [{ types := [{ objectTopic := "$SYS/topic", elements := [elemCached] }] }]

/-- Catalog `catalogCached` with the cache consumed. -/
def catalogOne : Catalog :=
  [{ types := [{ objectTopic := "$SYS/topic", elements := [elemA] }] }]

/-- Registry entry with empty values. -/
def mEmpty : metricData :=
  { name := "m1", description := "d1", objectType := false, values := [] }

/-- Registry entry carrying the normalised samples of `elemCached`. -/
def mCached : metricData :=
  { name := "m1", description := "d1", objectType := false,
    values := [("a", 10), ("b", 20)] }

/-- Registry after one `updateMetrics` on `catalogCached`. -/
def r1W : Registry := [("qmgr/cls/m1", mCached)]

/-- Registry after a second `updateMetrics` with empty caches. -/
def r2W : Registry := [("qmgr/cls/m1", mEmpty)]

/-! ### Claims -/

/-- C2: for every catalog in which no type's topic template contains the
per-object wildcard "%s" and no two elements produce the same derived
key, `initialiseMetrics` returns a registry whose key set equals exactly
the set of keys `grandparentName/parentName/metricName` over all elements
of the catalog, and returns a nil error (validity flag true). -/
theorem C2_initialise_complete (c : Catalog)
    (hnp : ∀ cl ∈ c, ∀ t ∈ cl.types, strContains t.objectTopic "%s" = false)
    (hnd : ((allElements c).map makeKey).Nodup) :
    (initialiseMetrics c).2 = true ∧
    (initialiseMetricsResult c).2 = none ∧
    (∀ k, (∃ m, regFind (initialiseMetrics c).1 k = some m) ↔
      k ∈ (allElements c).map makeKey) := by
  have heq : nonParamElements c = allElements c :=
    nonParamElements_eq_allElements c hnp
  have hvalid : (initialiseMetrics c).2 = true := by
    rw [initialiseMetrics_eq_initFlat, initFlat_snd, heq, Bool.true_and]
    exact (noDupKeys_iff _ _).mpr ⟨hnd, fun e _ => rfl⟩
  refine ⟨hvalid, by simp [initialiseMetricsResult, hvalid], ?_⟩
  intro k
  rw [initialiseMetrics_eq_initFlat, initFlat_regFind, heq]
  simp only [regFind]
  cases hf : firstKey (allElements c) k with
  | none =>
    have := (firstKey_eq_none_iff _ _).mp hf
    simp [this]
  | some e₀ =>
    have : k ∈ (allElements c).map makeKey := by
      by_contra hcon
      rw [← firstKey_eq_none_iff] at hcon
      rw [hcon] at hf
      exact Option.noConfusion hf
    simp [this]

/-- Witness for C2 at a concrete two-element catalog. -/
theorem C2_initialise_complete_witness :
    (initialiseMetrics catalogAB).2 = true ∧
    (∃ m, regFind (initialiseMetrics catalogAB).1 "qmgr/cls/m1" = some m) := by
  have h := C2_initialise_complete catalogAB (by decide) (by decide)
  exact ⟨h.1, (h.2.2 "qmgr/cls/m1").mpr (by decide)⟩

/-- C3: for every catalog containing two non-parameterized elements whose
derived keys collide, `initialiseMetrics` returns a non-nil error (the
registry is marked invalid), the first-inserted element's definition
remains in the registry under the colliding key (the later element does
not overwrite it), and the registry map is still returned rather than
discarded. -/
theorem C3_duplicate_key_invalid (c : Catalog) (i j : Nat)
    (hi : i < (nonParamElements c).length)
    (hj : j < (nonParamElements c).length)
    (hij : i < j)
    (hkey : makeKey ((nonParamElements c).get ⟨i, hi⟩)
          = makeKey ((nonParamElements c).get ⟨j, hj⟩)) :
    (initialiseMetrics c).2 = false ∧
    (initialiseMetricsResult c).2.isSome = true ∧
    ∃ e₀, firstKey (nonParamElements c)
          (makeKey ((nonParamElements c).get ⟨i, hi⟩)) = some e₀
      ∧ regFind (initialiseMetrics c).1
          (makeKey ((nonParamElements c).get ⟨i, hi⟩))
          = some (mkMetric e₀) := by
  have hnotnd : ¬ (((nonParamElements c).map makeKey).Nodup) := by
    intro hnd
    have hinj := List.nodup_iff_injective_get.mp hnd
    have hgi : ((nonParamElements c).map makeKey).get
        ⟨i, by rw [List.length_map]; exact hi⟩
        = makeKey ((nonParamElements c).get ⟨i, hi⟩) := by simp
    have hgj : ((nonParamElements c).map makeKey).get
        ⟨j, by rw [List.length_map]; exact hj⟩
        = makeKey ((nonParamElements c).get ⟨j, hj⟩) := by simp
    have hgeq : ((nonParamElements c).map makeKey).get
          ⟨i, by rw [List.length_map]; exact hi⟩
        = ((nonParamElements c).map makeKey).get
          ⟨j, by rw [List.length_map]; exact hj⟩ := by
      rw [hgi, hgj]; exact hkey
    have heqf := hinj hgeq
    have : i = j := congrArg Fin.val heqf
    exact Nat.ne_of_lt hij this
  have hvalid : (initialiseMetrics c).2 = false := by
    rw [initialiseMetrics_eq_initFlat, initFlat_snd, Bool.true_and]
    cases hnd : noDupKeys [] (nonParamElements c) with
    | false => rfl
    | true => exact absurd ((noDupKeys_iff _ _).mp hnd).1 hnotnd
  refine ⟨hvalid, by simp [initialiseMetricsResult, hvalid], ?_⟩
  have hmem : makeKey ((nonParamElements c).get ⟨i, hi⟩)
      ∈ (nonParamElements c).map makeKey :=
    List.mem_map_of_mem makeKey (List.get_mem _ i hi)
  cases hf : firstKey (nonParamElements c)
      (makeKey ((nonParamElements c).get ⟨i, hi⟩)) with
  | none => exact absurd ((firstKey_eq_none_iff _ _).mp hf) (not_not.mpr hmem)
  | some e₀ =>
    refine ⟨e₀, rfl, ?_⟩
    rw [initialiseMetrics_eq_initFlat, initFlat_regFind]
    simp only [regFind, hf, Option.map_some']

/-- Witness for C3 at a concrete catalog with a duplicate key: the
registry is invalid and keeps the first element's definition. -/
theorem C3_duplicate_key_invalid_witness :
    (initialiseMetrics catalogDup).2 = false ∧
    regFind (initialiseMetrics catalogDup).1 "qmgr/cls/m1"
      = some (mkMetric elemA) := by
  have hi : 0 < (nonParamElements catalogDup).length := by decide
  have hj : 1 < (nonParamElements catalogDup).length := by decide
  have hkey : makeKey ((nonParamElements catalogDup).get ⟨0, hi⟩)
      = makeKey ((nonParamElements catalogDup).get ⟨1, hj⟩) := rfl
  have h := C3_duplicate_key_invalid catalogDup 0 1 hi hj (by decide) hkey
  refine ⟨h.1, ?_⟩
  obtain ⟨e₀, hf, hr⟩ := h.2.2
  have h2 : some e₀ = some elemA := by rw [← hf]; rfl
  cases h2
  exact hr

/-- C9: `updateMetrics` is total only when every non-parameterized
element of the catalog has its derived key in the registry: a missing key
makes the write `metric.values = ...` dereference a nil pointer (panic,
modelled `none`), and the panic is unreachable when the registry was
built by `initialiseMetrics` from the same catalog. -/
theorem C9_missing_key_panics (n : MonElement → String → Int → Rat)
    (r : Registry) (c : Catalog) (e : MonElement)
    (he : e ∈ nonParamElements c)
    (habs : regFind r (makeKey e) = none) :
    updateMetrics n r c = none ∧
    ∀ c₂ : Catalog,
      (updateMetrics n (initialiseMetrics c₂).1 c₂).isSome = true := by
  constructor
  · rw [updateMetrics_eq_updateFlat]
    cases hf : updateFlat n r (nonParamElements c) with
    | none => rfl
    | some r' =>
      have hs : (updateFlat n r (nonParamElements c)).isSome = true := by
        rw [hf]; rfl
      have hmem := (updateFlat_isSome_iff n _ r).mp hs e he
      rw [regFind_eq_none_iff] at habs
      exact absurd hmem habs
  · intro c₂
    rw [updateMetrics_eq_updateFlat, Option.isSome_map']
    rw [updateFlat_isSome_iff]
    intro e₂ he₂
    rw [← regFind_ne_none_iff, initialiseMetrics_eq_initFlat, initFlat_regFind]
    simp only [regFind]
    cases hf : firstKey (nonParamElements c₂) (makeKey e₂) with
    | none =>
      have := (firstKey_eq_none_iff _ _).mp hf
      exact absurd (List.mem_map_of_mem makeKey he₂) this
    | some e₀ => simp

/-- Witness for C9: a fresh (nil) registry panics on the first element. -/
theorem C9_missing_key_panics_witness :
    (elemA ∈ nonParamElements catalogAB) ∧
    updateMetrics idNormalise [] catalogAB = none := by
  have h := C9_missing_key_panics idNormalise [] catalogAB elemA (by decide) rfl
  exact ⟨by decide, h.1⟩

/-- C10: every `metricData` created by `initialiseMetrics` starts with an
empty (nil) `values` mapping, and a snapshot requested with the refresh
flag false before any refresh replies with that registry unchanged, so
every metric in the reply has empty values. -/
theorem C10_initial_values_empty (c : Catalog)
    (n : MonElement → String → Int → Rat) (rest : List Bool)
    (k : String) (m : metricData)
    (hk : regFind (initialiseMetrics c).1 k = some m) :
    m.values = [] ∧
    serviceIteration n (initialiseMetrics c).1 c (false :: rest)
      = some ((initialiseMetrics c).1, c, rest, [(initialiseMetrics c).1]) := by
  constructor
  · rw [initialiseMetrics_eq_initFlat, initFlat_regFind] at hk
    simp only [regFind] at hk
    cases hf : firstKey (nonParamElements c) k with
    | none => rw [hf] at hk; exact Option.noConfusion hk
    | some e₀ =>
      rw [hf] at hk
      simp only [Option.map_some'] at hk
      cases hk
      rfl
  · rfl

/-- Witness for C10 at a concrete catalog. -/
theorem C10_initial_values_empty_witness :
    (mkMetric elemA).values = [] ∧
    serviceIteration idNormalise (initialiseMetrics catalogAB).1 catalogAB
        [false]
      = some ((initialiseMetrics catalogAB).1, catalogAB, [],
          [(initialiseMetrics catalogAB).1]) := by
  have h := C10_initial_values_empty catalogAB idNormalise []
    "qmgr/cls/m1" (mkMetric elemA) (by decide)
  exact ⟨h.1, h.2⟩

/-- C4: `updateMetrics` is idempotent per cycle: two successive calls
with no new cached samples in between leave every non-parameterized
metric's values mapping empty after the second call, because each
element's sample cache is cleared after being consumed. -/
theorem C4_idempotent_per_cycle (n : MonElement → String → Int → Rat)
    (r : Registry) (c : Catalog) (r₁ : Registry) (c₁ : Catalog)
    (r₂ : Registry) (c₂ : Catalog)
    (h1 : updateMetrics n r c = some (r₁, c₁))
    (h2 : updateMetrics n r₁ c₁ = some (r₂, c₂)) :
    ∀ e ∈ nonParamElements c,
      ∃ m, regFind r₂ (makeKey e) = some m ∧ m.values = [] := by
  rw [updateMetrics_eq_updateFlat] at h1
  cases hf1 : updateFlat n r (nonParamElements c) with
  | none => rw [hf1] at h1; exact Option.noConfusion h1
  | some r₁' =>
    rw [hf1] at h1
    simp only [Option.map_some'] at h1
    have hp := Option.some.inj h1
    have hr₁ : r₁' = r₁ := congrArg Prod.fst hp
    have hc₁ : clearCatalog c = c₁ := congrArg Prod.snd hp
    rw [updateMetrics_eq_updateFlat] at h2
    cases hf2 : updateFlat n r₁ (nonParamElements c₁) with
    | none => rw [hf2] at h2; exact Option.noConfusion h2
    | some r₂' =>
      rw [hf2] at h2
      simp only [Option.map_some'] at h2
      have hr₂ : r₂' = r₂ := congrArg Prod.fst (Option.some.inj h2)
      rw [← hc₁, nonParamElements_clearCatalog] at hf2
      have hemp : ∀ e' ∈ (nonParamElements c).map clearElement,
          e'.values = [] := by
        intro e' he'
        rcases List.mem_map.mp he' with ⟨e, -, rfl⟩
        rfl
      have hmain := updateFlat_empty_caches n _ r₁ r₂' hemp hf2
      intro e he
      have := hmain (clearElement e) (List.mem_map_of_mem clearElement he)
      rw [makeKey_clearElement, hr₂] at this
      exact this

/-- Witness for C4: two concrete successive updates on a one-element
catalog leave the entry's values empty. -/
theorem C4_idempotent_per_cycle_witness :
    regFind r2W (makeKey elemCached) = some mEmpty ∧ mEmpty.values = [] := by
  obtain ⟨m, hm, hv⟩ := C4_idempotent_per_cycle idNormalise
    (initialiseMetrics catalogCached).1 catalogCached r1W catalogOne
    r2W catalogOne (by decide) (by decide) elemCached (by decide)
  have hme : some m = some mEmpty := by rw [← hm]; rfl
  cases hme
  exact ⟨hm, hv⟩

/-- C5: for every non-parameterized element present in the registry with
cached raw samples a↦10, b↦20, if normalization is the identity then one
`updateMetrics` call replaces that metric's values wholesale by exactly
those samples (no merge with previous values), and the element's sample
cache is empty afterwards. -/
theorem C5_roundtrip_identity (n : MonElement → String → Int → Rat)
    (r : Registry) (c : Catalog) (e : MonElement) (m : metricData)
    (r' : Registry) (c' : Catalog)
    (hid : ∀ e' l v, n e' l v = (v : Rat))
    (he : e ∈ nonParamElements c)
    (hnd : ((nonParamElements c).map makeKey).Nodup)
    (hcache : e.values = [("a", 10), ("b", 20)])
    (hm : regFind r (makeKey e) = some m)
    (hupd : updateMetrics n r c = some (r', c')) :
    regFind r' (makeKey e)
      = some { m with values := [("a", (10 : Rat)), ("b", (20 : Rat))] } ∧
    ∀ e' ∈ nonParamElements c', makeKey e' = makeKey e → e'.values = [] := by
  have hfv : freshValues n e = [("a", (10 : Rat)), ("b", (20 : Rat))] := by
    rw [freshValues, hcache]
    simp only [List.foldl_cons, List.foldl_nil, hid]
    decide
  rw [updateMetrics_eq_updateFlat] at hupd
  cases hf : updateFlat n r (nonParamElements c) with
  | none => rw [hf] at hupd; exact Option.noConfusion hupd
  | some r'' =>
    rw [hf] at hupd
    simp only [Option.map_some'] at hupd
    have hp := Option.some.inj hupd
    have hr' : r'' = r' := congrArg Prod.fst hp
    have hc' : clearCatalog c = c' := congrArg Prod.snd hp
    constructor
    · rw [← hr', ← hfv]
      exact updateFlat_regFind_nodup n _ r r'' e m hnd he hm hf
    · intro e' he' _
      rw [← hc', nonParamElements_clearCatalog] at he'
      rcases List.mem_map.mp he' with ⟨e₀, -, rfl⟩
      rfl

/-- Witness for C5 at a concrete one-element catalog with identity
normalisation. -/
theorem C5_roundtrip_identity_witness :
    regFind r1W (makeKey elemCached) = some mCached ∧
    elemA.values = [] := by
  have h := C5_roundtrip_identity idNormalise
    (initialiseMetrics catalogCached).1 catalogCached elemCached
    (mkMetric elemCached) r1W catalogOne
    (fun _ _ _ => rfl) (by decide) (by decide) rfl (by decide) (by decide)
  refine ⟨?_, rfl⟩
  have h1 := h.1
  rw [show ({ mkMetric elemCached with
      values := [("a", (10 : Rat)), ("b", (20 : Rat))] }) = mCached
    from rfl] at h1
  exact h1

/-- C1: in an inner-loop iteration that receives a request, a true flag
runs `updateMetrics` on the registry before the reply is sent, and in
either case exactly the current registry map is sent on the response
channel; the worker reads at most one pending request per iteration
(the rest of the queue is untouched), and with no pending request the
timeout branch sends nothing. -/
theorem C1_one_request_per_iteration (n : MonElement → String → Int → Rat)
    (r : Registry) (c : Catalog) (r' : Registry) (c' : Catalog)
    (rest : List Bool)
    (hupd : updateMetrics n r c = some (r', c')) :
    serviceIteration n r c (true :: rest) = some (r', c', rest, [r']) ∧
    serviceIteration n r c (false :: rest) = some (r, c, rest, [r]) ∧
    serviceIteration n r c [] = some (r, c, [], []) := by
  refine ⟨?_, rfl, rfl⟩
  simp [serviceIteration, handleRequest, hupd]

/-- Witness for C1 on the empty catalog. -/
theorem C1_one_request_per_iteration_witness :
    serviceIteration idNormalise [] [] [true] = some ([], [], [], [[]]) ∧
    serviceIteration idNormalise [] [] [false] = some ([], [], [], [[]]) := by
  have h := C1_one_request_per_iteration idNormalise [] [] [] [] [] rfl
  exact ⟨h.1, h.2.1⟩

/-- C6: across any number of reconnect cycles in one run of
`processMetrics`, the startup barrier `wg.Done` is signalled exactly once,
in the cycle of the first successful connection, and never again on later
reconnects (`first` cleared) or after failed attempts. -/
theorem C6_startup_signal_once (outcomes : List Bool) (ok : Bool) :
    countWgDone (processTrace true outcomes)
      = (if true ∈ outcomes then 1 else 0) ∧
    countWgDone (processTrace false outcomes) = 0 ∧
    countWgDone (connectCycle false ok) = 0 ∧
    connectCycle true true
      = [.checkFlag true, .connectAttempt true, .wgDone, .buildRegistry,
         .runInner, .logError, .endConnection, .sleep 10] :=
  ⟨countWgDone_processTrace_true outcomes,
   countWgDone_processTrace_false outcomes,
   by cases ok <;> rfl, rfl⟩

/-- C8: every outer-loop cycle checks the shutdown flag at the top,
makes exactly one connect attempt, and ends with the fixed 10-second
backoff sleep before the next cycle; the number of attempts equals the
schedule length with no retry cap. -/
theorem C8_backoff_retry (f : Bool) (outcomes : List Bool) (ok : Bool)
    (rest : List Bool) :
    countConnects (processTrace f outcomes) = outcomes.length ∧
    processTrace f (ok :: rest)
      = connectCycle f ok ++ processTrace (stepFirst f ok) rest ∧
    countConnects (connectCycle f ok) = 1 ∧
    (connectCycle f ok).getLast? = some (WorkerAction.sleep 10) ∧
    (processTrace f rest).head?
      = some (WorkerAction.checkFlag (!rest.isEmpty)) := by
  refine ⟨countConnects_processTrace f outcomes, rfl,
    countConnects_connectCycle f ok, ?_, ?_⟩
  · cases f <;> cases ok <;> rfl
  · cases rest with
    | nil => rfl
    | cons o os => cases f <;> cases o <;> rfl

/-- C7 (amended): an error from the publication-drain step breaks the
inner servicing loop — nothing after the failing iteration is consumed —
and is surfaced to the lifecycle manager; however, because the `select`
runs before the loop condition is re-checked, the same iteration may
still service at most one request (or let the timeout elapse) after the
drain error. -/
theorem C7_drain_error_breaks_loop (n : MonElement → String → Int → Rat)
    (r : Registry) (c : Catalog) (pre : List (Bool × SelectEvent))
    (ev : SelectEvent) (rest : List (Bool × SelectEvent))
    (hpre : ∀ p ∈ pre, p.1 = true) :
    innerLoop n r c (pre ++ (false, ev) :: rest)
      = innerLoop n r c (pre ++ [(false, ev)]) ∧
    (∀ res, innerLoop n r c (pre ++ [(false, ev)]) = some res →
      res.errored = true) ∧
    (∀ r₀ c₀ drainOk ev₀ res, innerLoop n r₀ c₀ [(drainOk, ev₀)] = some res →
      res.responses.length ≤ 1) :=
  ⟨innerLoop_truncate n pre r c ev rest hpre,
   fun res h => innerLoop_errored n pre r c ev res hpre h,
   fun r₀ c₀ drainOk ev₀ res h =>
     innerLoop_single_responses n r₀ c₀ drainOk ev₀ res h⟩

/-- Witness for C7 (amended) on a concrete schedule. -/
theorem C7_drain_error_breaks_loop_witness :
    innerLoop idNormalise (initialiseMetrics catalogCached).1 catalogCached
        ([(true, SelectEvent.timeout)]
          ++ (false, SelectEvent.timeout) :: [(true, SelectEvent.timeout)])
      = innerLoop idNormalise (initialiseMetrics catalogCached).1 catalogCached
          ([(true, SelectEvent.timeout)] ++ [(false, SelectEvent.timeout)]) :=
  (C7_drain_error_breaks_loop idNormalise
    (initialiseMetrics catalogCached).1 catalogCached
    [(true, SelectEvent.timeout)] SelectEvent.timeout
    [(true, SelectEvent.timeout)] (by decide)).1

/-- Counterexample to C7 as stated: with a single scheduled iteration
whose drain fails and a pending `collect = true` request, the worker
still services the request (one response is sent) in the iteration in
which the drain error occurred, even though the loop then exits with the
error. -/
theorem C7_as_stated_counterexample :
    (innerLoop idNormalise (initialiseMetrics catalogCached).1 catalogCached
        [(false, SelectEvent.request true)]).map
      (fun res => (res.responses.length, res.errored)) = some (1, true) := by
  decide

end MQMetrics
